import Mathlib

/- A shallow embedding of the service convergence engine of this repository
   (compose/service.py).  Python dicts are modelled as association lists,
   calls into the container runtime are passed in as explicit arguments
   (the code is otherwise stateless), and fallible code returns Option or
   Except.  Collaborators of service.py that belong to the repository but
   are not under src/ (compose/const.py, compose/config.py,
   compose/container.py, the package version) are modelled from the spec,
   as marked in their doc comments. -/

/-- Association-list lookup, modelling Python dict access. -/
def dgetA {κ α : Type} [DecidableEq κ] : List (κ × α) → κ → Option α
  | [], _ => none
  | p :: rest, k => if p.1 = k then some p.2 else dgetA rest k

/-- Association-list update, modelling Python dict assignment: an existing
key is overwritten in place, a new key is appended at the end. -/
def dsetA {κ α : Type} [DecidableEq κ] : List (κ × α) → κ → α → List (κ × α)
  | [], k, v => [(k, v)]
  | p :: rest, k, v => if p.1 = k then (k, v) :: rest else p :: dsetA rest k v

/-- Keys of an association list. -/
def keysA {κ α : Type} (d : List (κ × α)) : List κ := d.map Prod.fst

/-- Python dict.update: fold the entries of the second dict into the first. -/
def dupdateA {κ α : Type} [DecidableEq κ] (d e : List (κ × α)) : List (κ × α) :=
  e.foldl (fun acc p => dsetA acc p.1 p.2) d

/-- Python dict(pairs): build a dict from a list of pairs, a later pair
overwriting an earlier one with the same key. -/
def dictOfPairs {κ α : Type} [DecidableEq κ] (ps : List (κ × α)) : List (κ × α) :=
  dupdateA [] ps

/-- Dicts keyed by strings, the common case. -/
abbrev Dict (α : Type) : Type := List (String × α)

/-- Splitting helper: cut the character list at each non-overlapping
occurrence of the separator, scanning left to right; the fuel only bounds
the recursion and never runs out when it starts at the list length. -/
def splitOnCharsFuel (sep : List Char) : Nat → List Char → List Char → List (List Char)
  | _, acc, [] => [acc.reverse]
  | 0, acc, rest => [acc.reverse ++ rest]
  | fuel + 1, acc, a :: rest =>
    if sep.isPrefixOf (a :: rest) then
      acc.reverse :: splitOnCharsFuel sep fuel [] ((a :: rest).drop sep.length)
    else
      splitOnCharsFuel sep fuel (a :: acc) rest

/-- Python str.split with a non-empty separator.  The engine never splits
on an empty separator, which Python rejects; it is mapped to the identity
here to keep the function total. -/
def splitOnS (s sep : String) : List String :=
  if sep = "" then [s]
  else (splitOnCharsFuel sep.toList (s.toList.length + 1) [] s.toList).map String.mk

/-- Embedding of the Python membership test for a substring: the pattern
occurs in the string iff splitting on it yields more than one piece. -/
def strContainsSub (s pat : String) : Bool := (splitOnS s pat).length != 1

/-- Python truthiness of an optional string: None and the empty string are
falsy. -/
def truthyOpt : Option String → Bool
  | none => false
  | some s => s != ""

/-- Modelled from the spec: the standard label keys live in compose/const.py,
which is not under src/; section 6 of the spec fixes the exact strings. -/
def LABEL_PROJECT : String := "com.docker.compose.project"

/-- Modelled from the spec: standard label key for the service name. -/
def LABEL_SERVICE : String := "com.docker.compose.service"

/-- Modelled from the spec: standard label key for the one-off flag. -/
def LABEL_ONE_OFF : String := "com.docker.compose.oneoff"

/-- Modelled from the spec: standard label key for the container number. -/
def LABEL_CONTAINER_NUMBER : String := "com.docker.compose.container-number"

/-- Modelled from the spec: standard label key for the engine version. -/
def LABEL_VERSION : String := "com.docker.compose.version"

/-- Modelled from the spec: standard label key for the config fingerprint. -/
def LABEL_CONFIG_HASH : String := "com.docker.compose.config-hash"

/-- Modelled from the spec: the engine version string comes from the package
metadata, which is not under src/; only its identity matters here. -/
def COMPOSE_VERSION : String := "1.3.0dev"

/-- VolumeSpec, the parsed triple of a volume string. -/
structure VolumeSpec where
  external : Option String
  internal : String
  mode : String
deriving DecidableEq

/-- parse_volume_spec: at most three colon-separated parts; one part is an
internal path with mode rw, two parts are external and internal with mode
rw, three parts carry an explicit mode that must be rw or ro.  None stands
for a raised ConfigError. -/
def parse_volume_spec (volume_config : String) : Option VolumeSpec :=
  match splitOnS volume_config ":" with
  | [v] => some ⟨none, v, "rw"⟩
  | [external, internal] => some ⟨some external, internal, "rw"⟩
  | [external, internal, mode] =>
      if mode = "rw" ∨ mode = "ro" then some ⟨some external, internal, mode⟩ else none
  | _ => none

/-- parse_repository_tag: split on the last colon; if the would-be tag
contains a slash it was a registry port, so the whole string is the repo. -/
def parse_repository_tag (s : String) : String × String :=
  if !(strContainsSub s ":") then (s, "")
  else
    let parts := splitOnS s ":"
    let repo := String.intercalate ":" parts.dropLast
    let tag := parts.getLast!
    if strContainsSub tag "/" then (s, "") else (repo, tag)

/-- External side of a parsed port: either a host port, or a host ip with an
optional host port. -/
inductive PortExternal
  | host (external_port : String)
  | ipHost (external_ip : String) (external_port : Option String)
deriving DecidableEq

/-- split_port: one to three colon-separated parts, anything else is a
ConfigError (None).  An empty host port in the three-part form becomes
none, mirroring the Python expression external_port or None. -/
def split_port (port : String) : Option (String × Option PortExternal) :=
  match splitOnS port ":" with
  | [internal_port] => some (internal_port, none)
  | [external_port, internal_port] => some (internal_port, some (.host external_port))
  | [external_ip, external_port, internal_port] =>
      some (internal_port,
        some (.ipHost external_ip (if external_port = "" then none else some external_port)))
  | _ => none

/-- Entry of the normalized ports list: a plain container port string, or
the tuple produced by splitting on a slash. -/
inductive PortEntry
  | str (s : String)
  | tup (parts : List String)
deriving DecidableEq

/-- Python str() applied to a port entry.  A string is itself; tuple
entries never occur in declared configurations, and their Python repr
quoting is elided here. -/
def PortEntry.toStr : PortEntry → String
  | .str s => s
  | .tup parts => "(" ++ String.intercalate ", " parts ++ ")"

/-- Body of the ports normalization loop of _get_container_create_options:
keep the final colon segment, then split on a slash into a tuple when one
is present. -/
def normalize_port (port : String) : PortEntry :=
  let port := if strContainsSub port ":" then (splitOnS port ":").getLast! else port
  if strContainsSub port "/" then .tup (splitOnS port "/") else .str port

/-- Host-config volume binding descriptor: the internal bind path and the
read-only flag. -/
structure Binding where
  bind : String
  ro : Bool
deriving DecidableEq

/-- build_volume_binding: a parsed volume spec becomes a pair of its
external side and the binding descriptor. -/
def build_volume_binding (volume_spec : VolumeSpec) : Option String × Binding :=
  (volume_spec.external, ⟨volume_spec.internal, volume_spec.mode == "ro"⟩)

/-- Modelled from the spec: the Container handle (compose/container.py, not
under src/) exposes id, name, labels, the Volumes snapshot map from
internal path to host path, the image config volume keys, and the running
flag. -/
structure Container where
  id : String
  name : String
  labels : Dict String
  volumes : Dict String
  image_volumes : List String
  is_running : Bool
deriving DecidableEq

/-- Candidate volume strings examined by get_container_data_volumes: the
declared volumes plus the image config volume keys, as a set.  Python
iterates the set in an unspecified order; one canonical order is used
here. -/
def data_volume_candidates (container : Container) (volumes_option : List String) : List String :=
  (volumes_option ++ container.image_volumes).dedup

/-- Loop body of get_container_data_volumes: parse each candidate, skip
volumes with a truthy external side, skip volumes absent from (or falsy
in) the old container volume map, and lift the host path of the rest into
the external side of a new binding. -/
def data_volume_pairs (container : Container) : List String → Option (List (Option String × Binding))
  | [] => some []
  | v :: rest =>
    match parse_volume_spec v with
    | none => none
    | some volume =>
      match data_volume_pairs container rest with
      | none => none
      | some tail =>
        if truthyOpt volume.external then some tail
        else
          match dgetA container.volumes volume.internal with
          | none => some tail
          | some volume_path =>
            if volume_path = "" then some tail
            else some (build_volume_binding { volume with external := some volume_path } :: tail)

/-- get_container_data_volumes: the migrated bindings as a dict. -/
def get_container_data_volumes (container : Container) (volumes_option : List String) :
    Option (List (Option String × Binding)) :=
  (data_volume_pairs container (data_volume_candidates container volumes_option)).map dictOfPairs

/-- merge_volume_bindings: bindings of the declared volumes having an
external side, updated with the data volumes carried over from the
previous container when one is given. -/
def merge_volume_bindings (volumes_option : List String) (previous_container : Option Container) :
    Option (List (Option String × Binding)) :=
  match (volumes_option.filter (fun v => strContainsSub v ":")).mapM parse_volume_spec with
  | none => none
  | some specs =>
    let volume_bindings := dictOfPairs (specs.map build_volume_binding)
    match previous_container with
    | none => some volume_bindings
    | some pc =>
      match get_container_data_volumes pc volumes_option with
      | none => none
      | some data => some (dupdateA volume_bindings data)

/-- Value of the volumes option: the declared list of volume strings, or
the internal-path set the option assembler rewrites it to. -/
inductive VolumesVal
  | decl (vs : List String)
  | internalSet (vs : List String)
deriving DecidableEq

/-- Strings iterated over for a volumes value: the declared strings, or the
keys of the rewritten map. -/
def volumesList : VolumesVal → List String
  | .decl vs => vs
  | .internalSet vs => vs

/-- Host config payload.  Its construction (_get_container_host_config)
issues runtime calls through the client, so its value is passed into the
option assembler as a function of the override options. -/
structure HostConfig where
  tag : Nat := 0
deriving DecidableEq

/-- Option bag of a service, modelled as a record with one optional field
per recognized key; a none field is an absent key. -/
structure Opts where
  cap_add : Option (List String) := none
  cap_drop : Option (List String) := none
  detach : Option Bool := none
  devices : Option (List String) := none
  dns : Option (List String) := none
  dns_search : Option (List String) := none
  domainname : Option String := none
  env_file : Option (List String) := none
  environment : Option (Dict String) := none
  extra_hosts : Option (Dict String) := none
  read_only : Option Bool := none
  hostname : Option String := none
  image : Option String := none
  labels : Option (Dict String) := none
  net : Option String := none
  log_driver : Option String := none
  pid : Option String := none
  ports : Option (List PortEntry) := none
  privileged : Option Bool := none
  restart : Option String := none
  security_opt : Option (List String) := none
  volumes : Option VolumesVal := none
  volumes_from : Option (List String) := none
  expose : Option (List String) := none
  build : Option String := none
  name : Option String := none
  binds : Option (List (Option String × Binding)) := none
  host_config : Option HostConfig := none
deriving DecidableEq

/-- Python emptiness test on the option dict. -/
def Opts.isEmpty (o : Opts) : Bool := o == {}

/-- Modelled from the spec: DOCKER_CONFIG_KEYS (compose/config.py, not
under src/) whitelists the option keys the runtime create call recognizes,
the start-only keys included; selection copies exactly those keys from the
declared options.  expose and build are not in the whitelist. -/
def select_create_options (o : Opts) : Opts :=
  { cap_add := o.cap_add, cap_drop := o.cap_drop, detach := o.detach,
    devices := o.devices, dns := o.dns, dns_search := o.dns_search,
    domainname := o.domainname, env_file := o.env_file,
    environment := o.environment, extra_hosts := o.extra_hosts,
    read_only := o.read_only, hostname := o.hostname, image := o.image,
    labels := o.labels, net := o.net, log_driver := o.log_driver,
    pid := o.pid, ports := o.ports, privileged := o.privileged,
    restart := o.restart, security_opt := o.security_opt,
    volumes := o.volumes, volumes_from := o.volumes_from }

/-- Python dict.update of one option bag with another: a key present in
the override wins field by field. -/
def merge_options (base override : Opts) : Opts :=
  { cap_add := override.cap_add <|> base.cap_add,
    cap_drop := override.cap_drop <|> base.cap_drop,
    detach := override.detach <|> base.detach,
    devices := override.devices <|> base.devices,
    dns := override.dns <|> base.dns,
    dns_search := override.dns_search <|> base.dns_search,
    domainname := override.domainname <|> base.domainname,
    env_file := override.env_file <|> base.env_file,
    environment := override.environment <|> base.environment,
    extra_hosts := override.extra_hosts <|> base.extra_hosts,
    read_only := override.read_only <|> base.read_only,
    hostname := override.hostname <|> base.hostname,
    image := override.image <|> base.image,
    labels := override.labels <|> base.labels,
    net := override.net <|> base.net,
    log_driver := override.log_driver <|> base.log_driver,
    pid := override.pid <|> base.pid,
    ports := override.ports <|> base.ports,
    privileged := override.privileged <|> base.privileged,
    restart := override.restart <|> base.restart,
    security_opt := override.security_opt <|> base.security_opt,
    volumes := override.volumes <|> base.volumes,
    volumes_from := override.volumes_from <|> base.volumes_from,
    expose := override.expose <|> base.expose,
    build := override.build <|> base.build,
    name := override.name <|> base.name,
    binds := override.binds <|> base.binds,
    host_config := override.host_config <|> base.host_config }

/-- Deletion of the start-only keys (DOCKER_START_KEYS) from the create
payload. -/
def pop_start_keys (o : Opts) : Opts :=
  { o with
    cap_add := none
    cap_drop := none
    devices := none
    dns := none
    dns_search := none
    env_file := none
    extra_hosts := none
    read_only := none
    net := none
    log_driver := none
    pid := none
    privileged := none
    restart := none
    volumes_from := none
    security_opt := none }

/-- Modelled from the spec: merge_environment (compose/config.py, not under
src/) merges the service environment with the override environment, the
override winning key by key. -/
def merge_environment (base override : Option (Dict String)) : Dict String :=
  dupdateA (base.getD []) (override.getD [])

/-- A service: its name, its project, and its declared option bag.  The
runtime client held by the Python object is not state of the service; the
data it supplies is passed into each operation explicitly. -/
structure Service where
  name : String
  project : String
  options : Opts
deriving DecidableEq

/-- build_container_name: project and service joined with underscores, a
run segment inserted for one-off containers, the number last. -/
def build_container_name (project service : String) (number : Nat) (one_off : Bool) : String :=
  let bits := [project, service] ++ (if one_off then ["run"] else [])
  String.intercalate "_" (bits ++ [toString number])

/-- Service.get_container_name. -/
def Service.get_container_name (s : Service) (number : Nat) (one_off : Bool) : String :=
  build_container_name s.project s.name number one_off

/-- Service.can_be_built: a build path is declared. -/
def Service.can_be_built (s : Service) : Bool := s.options.build.isSome

/-- Service.full_name: the image tag for locally built services. -/
def Service.full_name (s : Service) : String := s.project ++ "_" ++ s.name

/-- Service.image_name: the full name for buildable services, otherwise the
declared image; none models the KeyError on a service with neither. -/
def Service.image_name (s : Service) : Option String :=
  if s.can_be_built then some s.full_name else s.options.image

/-- Service.labels: the three standard service-scope label selectors. -/
def Service.labels (s : Service) (one_off : Bool) : List String :=
  [LABEL_PROJECT ++ "=" ++ s.project,
   LABEL_SERVICE ++ "=" ++ s.name,
   LABEL_ONE_OFF ++ "=" ++ (if one_off then "True" else "False")]

/-- Service.can_be_scaled: no declared port string may contain a colon. -/
def Service.can_be_scaled (s : Service) : Bool :=
  (s.options.ports.getD []).all (fun port => !(strContainsSub port.toStr ":"))

/-- Python split with maxsplit one on the equals sign, rejoining the
remainder; service labels always contain an equals sign, so the total
fallback for a string without one is never exercised. -/
def splitEq (label : String) : String × String :=
  (String.mk (label.toList.takeWhile (fun c => c ≠ '=')),
   String.mk ((label.toList.dropWhile (fun c => c ≠ '=')).drop 1))

/-- build_container_labels: start from the user labels, overwrite with the
standard service labels, then stamp the container number and the engine
version.  The unused one_off default parameter of the source is omitted. -/
def build_container_labels (label_options : Dict String) (service_labels : List String)
    (number : Nat) : Dict String :=
  let labels := dupdateA label_options (service_labels.map splitEq)
  let labels := dsetA labels LABEL_CONTAINER_NUMBER (toString number)
  dsetA labels LABEL_VERSION COMPOSE_VERSION

/-- Python str.partition on the first dot: the part before and the part
after. -/
def splitAtFirstDot (hostname : String) : String × String :=
  let parts := splitOnS hostname "."
  (parts.head!, String.intercalate "." parts.tail)

/-- Service._get_container_create_options.  The two stateful ingredients
are passed explicitly: config_hash stands for self.config_hash() (a hash
over the options and the runtime-reported image id), and host_config_of
stands for the _get_container_host_config call on the override options,
which consults the runtime client.  None models a propagated
configuration fault. -/
def Service.get_container_create_options (s : Service) (override_options : Opts)
    (number : Nat) (one_off : Bool) (previous_container : Option Container)
    (config_hash : String) (host_config_of : Opts → HostConfig) : Option Opts :=
  let add_config_hash := !one_off && override_options.isEmpty
  let container_options := merge_options (select_create_options s.options) override_options
  let container_options := { container_options with
    name := some (s.get_container_name number one_off) }
  let container_options :=
    if add_config_hash then
      { container_options with
        labels := some (dsetA (container_options.labels.getD []) LABEL_CONFIG_HASH config_hash) }
    else container_options
  let container_options :=
    if container_options.detach = none then { container_options with detach := some true }
    else container_options
  let container_options :=
    match container_options.hostname, container_options.domainname with
    | some hostname, none =>
      if strContainsSub hostname "." then
        let parts := splitAtFirstDot hostname
        { container_options with hostname := some parts.1, domainname := some parts.2 }
      else container_options
    | _, _ => container_options
  let container_options :=
    if container_options.ports.isSome || s.options.expose.isSome then
      let all_ports := container_options.ports.getD [] ++ (s.options.expose.getD []).map .str
      { container_options with ports := some (all_ports.map (fun p => normalize_port p.toStr)) }
    else container_options
  match merge_volume_bindings
      ((container_options.volumes.map volumesList).getD []) previous_container with
  | none => none
  | some binds =>
    let override_options := { override_options with binds := some binds }
    let rewritten_volumes : Option Opts :=
      match container_options.volumes with
      | some vv =>
        match (volumesList vv).mapM parse_volume_spec with
        | none => none
        | some specs =>
          some { container_options with
            volumes := some (VolumesVal.internalSet (specs.map VolumeSpec.internal)) }
      | none => some container_options
    match rewritten_volumes with
    | none => none
    | some container_options =>
      let environment := merge_environment s.options.environment override_options.environment
      let environment :=
        match previous_container with
        | some prev => dsetA environment "affinity:container" ("=" ++ prev.id)
        | none => environment
      let container_options := { container_options with environment := some environment }
      match s.image_name with
      | none => none
      | some image =>
        let container_options := { container_options with image := some image }
        let container_options := { container_options with
          labels := some (build_container_labels (container_options.labels.getD [])
            (s.labels one_off) number) }
        let container_options := pop_start_keys container_options
        let container_options := { container_options with
          host_config := some (host_config_of override_options) }
        some container_options

/-- ConvergencePlan: an action tag and the containers it applies to. -/
structure ConvergencePlan where
  action : String
  containers : List Container
deriving DecidableEq

/-- Service._containers_have_diverged, with self.config_hash() passed in:
scan every container and flag any whose config hash label differs from the
current fingerprint. -/
def containers_have_diverged (config_hash : String) (containers : List Container) : Bool :=
  containers.foldl
    (fun has_diverged c =>
      if dgetA c.labels LABEL_CONFIG_HASH ≠ some config_hash then true else has_diverged)
    false

/-- Service.convergence_plan, with the labelled container list (stopped
included) and self.config_hash() passed in. -/
def convergence_plan (config_hash : String) (containers : List Container)
    (allow_recreate smart_recreate : Bool) : ConvergencePlan :=
  if containers.isEmpty then ⟨"create", []⟩
  else if smart_recreate && !(containers_have_diverged config_hash containers) then
    let stopped := containers.filter (fun c => !c.is_running)
    if !stopped.isEmpty then ⟨"start", stopped⟩ else ⟨"noop", containers⟩
  else if !allow_recreate then ⟨"start", containers⟩
  else ⟨"recreate", containers⟩

/-- A container as the scaler sees it: its parsed number label and its
running flag. -/
structure SCtr where
  number : Nat
  is_running : Bool
deriving DecidableEq, Inhabited

/-- Service._next_container_number over the matching containers: one when
none exist, otherwise one past the maximum existing number. -/
def next_container_number (containers : List SCtr) : Nat :=
  let numbers := containers.map (fun c => c.number)
  if numbers.isEmpty then 1 else numbers.foldl Nat.max 0 + 1

/-- First loop of Service.scale: create (non-running) containers until at
least the desired number exist. -/
def create_containers_up_to (containers : List SCtr) (desired_num : Nat) : List SCtr :=
  if containers.length < desired_num then
    create_containers_up_to (containers ++ [⟨next_container_number containers, false⟩]) desired_num
  else containers
termination_by desired_num - containers.length
decreasing_by simp only [List.length_append, List.length_cons, List.length_nil]; omega

/-- Sorting by ascending container number, as list.sort with a number key. -/
def sort_by_number (containers : List SCtr) : List SCtr :=
  containers.insertionSort (fun a b => a.number ≤ b.number)

/-- Second loop of Service.scale: while more than the desired number are
running, pop the last (highest-numbered) running container, stop it, and
move it to the stopped list. -/
def stop_excess (running stopped : List SCtr) (desired_num : Nat) : List SCtr × List SCtr :=
  if desired_num < running.length then
    match running.getLast? with
    | none => (running, stopped)
    | some c =>
      stop_excess running.dropLast (stopped ++ [{ c with is_running := false }]) desired_num
  else (running, stopped)
termination_by running.length
decreasing_by simp only [List.length_dropLast]; omega

/-- Third loop of Service.scale: while fewer than the desired number are
running, pop the first stopped container and start it; popping from an
empty list is the Python IndexError, modelled as none. -/
def start_missing (running stopped : List SCtr) (desired_num : Nat) :
    Option (List SCtr × List SCtr) :=
  if running.length < desired_num then
    match stopped with
    | [] => none
    | c :: rest => start_missing (running ++ [{ c with is_running := true }]) rest desired_num
  else some (running, stopped)
termination_by stopped.length
decreasing_by simp only [List.length_cons]; omega

/-- Service.scale over the labelled container list (stopped included):
refuse unscalable services, create up to the target, partition and sort,
stop the excess, start the missing, and remove every stopped container.
The returned list is the container set left on the daemon. -/
def Service.scale (s : Service) (containers : List SCtr) (desired_num : Nat) :
    Option (List SCtr) :=
  if !s.can_be_scaled then none
  else
    let containers := create_containers_up_to containers desired_num
    let running_containers := containers.filter (fun c => c.is_running)
    let stopped_containers := containers.filter (fun c => !c.is_running)
    let running_containers := sort_by_number running_containers
    let stopped_containers := sort_by_number stopped_containers
    let rs := stop_excess running_containers stopped_containers desired_num
    match start_missing rs.1 rs.2 desired_num with
    | none => none
    | some (running_containers, _) => some running_containers

/-- Error raised by the runtime HTTP API. -/
structure APIError where
  status_code : Nat
  explanation : Option String
deriving DecidableEq

/-- Steps of the recreate protocol issued after the stop attempt. -/
inductive RecreateStep
  | rename (id newName : String)
  | create (number : Option String) (previous : String)
  | start
  | remove (id : String)
deriving DecidableEq

/-- Modelled from the spec: Container.short_id (compose/container.py, not
under src/) is the first twelve characters of the id. -/
def short_id (id : String) : String := id.take 12

/-- The rename, create, start, remove tail of the recreate protocol for one
container: rename to a short-id-prefixed sentinel, create the replacement
from the previous container with its number label, start it, remove the
original. -/
def recreate_steps (c : Container) : List RecreateStep :=
  [RecreateStep.rename c.id (short_id c.id ++ "_" ++ c.name),
   RecreateStep.create (dgetA c.labels LABEL_CONTAINER_NUMBER) c.id,
   RecreateStep.start,
   RecreateStep.remove c.id]

/-- Service.recreate_container, with the outcome of the stop call passed
in: a status five hundred error whose truthy explanation contains the no
such process text is swallowed and the protocol proceeds; any other stop
error is re-raised. -/
def recreate_container (c : Container) (stop_outcome : Option APIError) :
    Except APIError (List RecreateStep) :=
  match stop_outcome with
  | some e =>
    if e.status_code == 500 && truthyOpt e.explanation
        && strContainsSub (e.explanation.getD "") "no such process" then
      Except.ok (recreate_steps c)
    else Except.error e
  | none => Except.ok (recreate_steps c)

/-- Calls the pull path issues to the runtime. -/
inductive RuntimeCall
  | pull (repo tag : String)
deriving DecidableEq

/-- Service.pull: return immediately when no image is declared, otherwise
parse the repository and tag (defaulting to latest) and issue the pull
call.  The returned list is the trace of runtime calls. -/
def Service.pull (s : Service) : List RuntimeCall :=
  match s.options.image with
  | none => []
  | some image =>
    let rt := parse_repository_tag image
    let tag := if rt.2 = "" then "latest" else rt.2
    [RuntimeCall.pull rt.1 tag]

/-- Lookup after setting the same key yields the new value. -/
theorem dgetA_dsetA_self {κ α : Type} [DecidableEq κ] (d : List (κ × α)) (k : κ) (v : α) :
    dgetA (dsetA d k v) k = some v := by
  induction d with
  | nil => simp [dsetA, dgetA]
  | cons p rest ih =>
    by_cases h : p.1 = k
    · simp [dsetA, h, dgetA]
    · simp [dsetA, h, dgetA, ih]

/-- Lookup after setting a different key is unchanged. -/
theorem dgetA_dsetA_ne {κ α : Type} [DecidableEq κ] (d : List (κ × α)) (k' k : κ) (v : α)
    (hne : k' ≠ k) : dgetA (dsetA d k' v) k = dgetA d k := by
  induction d with
  | nil => simp [dsetA, dgetA, hne]
  | cons p rest ih =>
    by_cases h : p.1 = k'
    · simp [dsetA, h, dgetA, hne, h.symm ▸ hne]
    · simp [dsetA, h, dgetA, ih]

/-- Keys of a cons. -/
theorem keysA_cons {κ α : Type} (p : κ × α) (d : List (κ × α)) :
    keysA (p :: d) = p.1 :: keysA d := rfl

/-- Setting an absent key appends the pair at the end. -/
theorem dsetA_not_mem {κ α : Type} [DecidableEq κ] (d : List (κ × α)) (k : κ) (v : α)
    (h : k ∉ keysA d) : dsetA d k v = d ++ [(k, v)] := by
  induction d with
  | nil => simp [dsetA]
  | cons p rest ih =>
    rw [keysA_cons, List.mem_cons, not_or] at h
    have hne : ¬ p.1 = k := fun hh => h.1 hh.symm
    simp [dsetA, hne, ih h.2]

/-- Unfolding one step of dict.update. -/
theorem dupdateA_cons {κ α : Type} [DecidableEq κ] (d : List (κ × α)) (p : κ × α)
    (e : List (κ × α)) : dupdateA d (p :: e) = dupdateA (dsetA d p.1 p.2) e := rfl

/-- Updating with entries whose keys are all absent from the lookup key
leaves that lookup unchanged. -/
theorem dgetA_dupdateA_not_mem {κ α : Type} [DecidableEq κ] (e d : List (κ × α)) (k : κ)
    (h : k ∉ keysA e) : dgetA (dupdateA d e) k = dgetA d k := by
  induction e generalizing d with
  | nil => rfl
  | cons p rest ih =>
    rw [keysA_cons, List.mem_cons, not_or] at h
    have hne : p.1 ≠ k := fun hh => h.1 hh.symm
    rw [dupdateA_cons, ih _ h.2, dgetA_dsetA_ne _ _ _ _ hne]

/-- With pairwise distinct update keys, updating makes each updated key map
to its pair value. -/
theorem dgetA_dupdateA_mem {κ α : Type} [DecidableEq κ] (e d : List (κ × α)) (k : κ) (v : α)
    (hnd : (keysA e).Nodup) (hmem : (k, v) ∈ e) : dgetA (dupdateA d e) k = some v := by
  induction e generalizing d with
  | nil => cases hmem
  | cons p rest ih =>
    rw [keysA_cons, List.nodup_cons] at hnd
    rcases List.mem_cons.mp hmem with h | h
    · subst h
      rw [dupdateA_cons, dgetA_dupdateA_not_mem _ _ _ hnd.1]
      exact dgetA_dsetA_self _ _ _
    · rw [dupdateA_cons]
      exact ih (dsetA d p.1 p.2) hnd.2 h

/-- Updating with pairwise fresh, pairwise distinct keys appends. -/
theorem dupdateA_eq_append {κ α : Type} [DecidableEq κ] (e d : List (κ × α))
    (h1 : ∀ k ∈ keysA e, k ∉ keysA d) (h2 : (keysA e).Nodup) : dupdateA d e = d ++ e := by
  induction e generalizing d with
  | nil => simp [dupdateA]
  | cons p rest ih =>
    rw [keysA_cons, List.nodup_cons] at h2
    have hp : p.1 ∉ keysA d := h1 p.1 (by rw [keysA_cons]; exact List.mem_cons_self _ _)
    have h1r : ∀ k ∈ keysA rest, k ∉ keysA (d ++ [p]) := by
      intro k hk
      have hkd : k ∉ keysA d := h1 k (by rw [keysA_cons]; exact List.mem_cons_of_mem _ hk)
      have hkp : k ≠ p.1 := fun hh => h2.1 (hh ▸ hk)
      simp only [keysA, List.map_append, List.mem_append, List.map_cons, List.map_nil,
        List.mem_singleton, not_or]
      exact ⟨hkd, hkp⟩
    rw [dupdateA_cons, dsetA_not_mem _ _ _ hp, ih (d ++ [p]) h1r h2.2]
    simp

/-- A pair list with pairwise distinct keys is its own dict. -/
theorem dictOfPairs_eq_self {κ α : Type} [DecidableEq κ] (ps : List (κ × α))
    (h : (keysA ps).Nodup) : dictOfPairs ps = ps := by
  simpa [dictOfPairs] using dupdateA_eq_append ps [] (by simp [keysA]) h

/-- Lookup of a member pair in a dict with pairwise distinct keys. -/
theorem dgetA_of_mem {κ α : Type} [DecidableEq κ] (d : List (κ × α)) (k : κ) (v : α)
    (hnd : (keysA d).Nodup) (hmem : (k, v) ∈ d) : dgetA d k = some v := by
  induction d with
  | nil => cases hmem
  | cons p rest ih =>
    simp only [keysA, List.map_cons, List.nodup_cons] at hnd
    rcases List.mem_cons.mp hmem with h | h
    · subst h; simp [dgetA]
    · have hne : p.1 ≠ k := by
        intro hh
        exact hnd.1 (hh ▸ List.mem_map_of_mem Prod.fst h)
      simp [dgetA, hne, ih hnd.2 h]

/-- Taking while a predicate holds skips over a block that satisfies it. -/
theorem takeWhile_append_all {α} (p : α → Bool) (l₁ l₂ : List α) (h : ∀ a ∈ l₁, p a = true) :
    (l₁ ++ l₂).takeWhile p = l₁ ++ l₂.takeWhile p := by
  induction l₁ with
  | nil => simp
  | cons a t ih =>
    simp [List.takeWhile_cons, h a (List.mem_cons_self a t),
      ih (fun b hb => h b (List.mem_cons_of_mem a hb))]

/-- Dropping while a predicate holds removes a block that satisfies it. -/
theorem dropWhile_append_all {α} (p : α → Bool) (l₁ l₂ : List α) (h : ∀ a ∈ l₁, p a = true) :
    (l₁ ++ l₂).dropWhile p = l₂.dropWhile p := by
  induction l₁ with
  | nil => simp
  | cons a t ih =>
    simp [List.dropWhile_cons, h a (List.mem_cons_self a t),
      ih (fun b hb => h b (List.mem_cons_of_mem a hb))]

/-- Splitting a label at its first equals sign recovers key and value when
the key is free of equals signs. -/
theorem splitEq_append (k v : String) (hk : ∀ c ∈ k.toList, c ≠ '=') :
    splitEq (k ++ "=" ++ v) = (k, v) := by
  have hdata : (k ++ "=" ++ v).toList = k.toList ++ '=' :: v.toList := by
    show (k.data ++ "=".data) ++ v.data = k.data ++ '=' :: v.data
    simp
  have hall : ∀ c ∈ k.toList, (fun c => decide (c ≠ '=')) c = true := by
    intro c hc
    simpa using hk c hc
  unfold splitEq
  rw [hdata, takeWhile_append_all _ _ _ hall, dropWhile_append_all _ _ _ hall]
  simp only [List.takeWhile_cons, List.dropWhile_cons, decide_not]
  simp

/-- C4: _containers_have_diverged reports divergence exactly when at least
one container carries a config hash label different from the current
service fingerprint; a container with no config hash label (lookup none)
is in particular flagged as diverged. -/
theorem containers_have_diverged_iff (config_hash : String) (cs : List Container) :
    containers_have_diverged config_hash cs = true ↔
      ∃ c ∈ cs, dgetA c.labels LABEL_CONFIG_HASH ≠ some config_hash := by
  have aux : ∀ (l : List Container) (b : Bool),
      (l.foldl (fun has_diverged c =>
        if dgetA c.labels LABEL_CONFIG_HASH ≠ some config_hash then true else has_diverged)
        b = true) ↔
      (b = true ∨ ∃ c ∈ l, dgetA c.labels LABEL_CONFIG_HASH ≠ some config_hash) := by
    intro l
    induction l with
    | nil => simp
    | cons c t ih =>
      intro b
      rw [List.foldl_cons, ih]
      by_cases hc : dgetA c.labels LABEL_CONFIG_HASH ≠ some config_hash
      · simp [hc]
      · simp [hc]
  rw [containers_have_diverged, aux]
  simp

/-- C7: parse_volume_spec faults on more than three colon-separated parts
and on a three-part mode other than rw or ro; otherwise one part maps to
an internal path with mode rw, two parts to external and internal with
mode rw, and three parts keep their mode. -/
theorem parse_volume_spec_spec (s : String) :
    (3 < (splitOnS s ":").length → parse_volume_spec s = none) ∧
    (∀ p, splitOnS s ":" = [p] → parse_volume_spec s = some ⟨none, p, "rw"⟩) ∧
    (∀ e i, splitOnS s ":" = [e, i] → parse_volume_spec s = some ⟨some e, i, "rw"⟩) ∧
    (∀ e i m, splitOnS s ":" = [e, i, m] →
      ((m = "rw" ∨ m = "ro") → parse_volume_spec s = some ⟨some e, i, m⟩) ∧
      (m ≠ "rw" → m ≠ "ro" → parse_volume_spec s = none)) := by
  refine ⟨?_, ?_, ?_, ?_⟩
  · intro hlen
    unfold parse_volume_spec
    rcases hsp : splitOnS s ":" with _ | ⟨a, _ | ⟨b, _ | ⟨c, _ | ⟨d, t⟩⟩⟩⟩ <;>
      rw [hsp] at hlen <;> simp_all
  · intro p hp
    simp [parse_volume_spec, hp]
  · intro e i hp
    simp [parse_volume_spec, hp]
  · intro e i m hp
    constructor
    · intro hm
      simp [parse_volume_spec, hp, hm]
    · intro hm1 hm2
      simp [parse_volume_spec, hp, hm1, hm2]

/-- C7 witness: the theorem applied to a three-part volume string. -/
theorem parse_volume_spec_spec_witness :
    parse_volume_spec "/a:/b:ro" = some ⟨some "/a", "/b", "ro"⟩ ∧
    parse_volume_spec "/a:/b:rx" = none := by
  constructor
  · exact ((parse_volume_spec_spec "/a:/b:ro").2.2.2 "/a" "/b" "ro" (by decide)).1 (Or.inr rfl)
  · exact ((parse_volume_spec_spec "/a:/b:rx").2.2.2 "/a" "/b" "rx" (by decide)).2
      (by decide) (by decide)

/-- C9: pull on a service whose options declare no image returns at once,
issuing no runtime call and raising no error, so no state changes. -/
theorem pull_no_image_noop (s : Service) (h : s.options.image = none) :
    s.pull = [] := by
  unfold Service.pull
  rw [h]

/-- C9 witness: the theorem applied to a build-only service. -/
theorem pull_no_image_noop_witness :
    Service.pull ⟨"web", "proj", { build := some "./app" }⟩ = [] :=
  pull_no_image_noop _ rfl

/-- C8: during recreate, a stop failure with runtime status five hundred
and a truthy explanation containing the no such process text is treated as
success, the rename, create, start, remove protocol proceeding; a stop
failure of any other kind is propagated to the caller unchanged. -/
theorem recreate_stop_error_handling (c : Container) (e : APIError) :
    (e.status_code = 500 → ∀ ex, e.explanation = some ex → ex ≠ "" →
      strContainsSub ex "no such process" = true →
      recreate_container c (some e) = Except.ok (recreate_steps c)) ∧
    (e.status_code ≠ 500 → recreate_container c (some e) = Except.error e) ∧
    (e.explanation = none → recreate_container c (some e) = Except.error e) ∧
    (∀ ex, e.explanation = some ex → strContainsSub ex "no such process" = false →
      recreate_container c (some e) = Except.error e) := by
  refine ⟨?_, ?_, ?_, ?_⟩
  · intro h5 ex hex hne hcontains
    simp [recreate_container, hex, h5, truthyOpt, hne, hcontains]
  · intro h5
    have hb : (e.status_code == 500) = false := by simpa using h5
    simp [recreate_container, hb]
  · intro hex
    simp [recreate_container, hex, truthyOpt]
  · intro ex hex hcontains
    simp [recreate_container, hex, truthyOpt, hcontains]

/-- C8 witness: the theorem applied to a swallowed stop error and to a
propagated one. -/
theorem recreate_stop_error_handling_witness :
    recreate_container
      ⟨"abcdefghijklmnop", "proj_web_1", [(LABEL_CONTAINER_NUMBER, "1")], [], [], true⟩
      (some ⟨500, some "err: no such process here"⟩) =
      Except.ok (recreate_steps
        ⟨"abcdefghijklmnop", "proj_web_1", [(LABEL_CONTAINER_NUMBER, "1")], [], [], true⟩) ∧
    recreate_container
      ⟨"abcdefghijklmnop", "proj_web_1", [(LABEL_CONTAINER_NUMBER, "1")], [], [], true⟩
      (some ⟨404, some "gone"⟩) = Except.error ⟨404, some "gone"⟩ := by
  constructor
  · exact (recreate_stop_error_handling _ _).1 rfl "err: no such process here" rfl
      (by decide) (by decide)
  · exact (recreate_stop_error_handling _ _).2.1 (by decide)

/-- C5: split_port maps one colon-separated part to the container port with
no host side, two parts to container and host, three parts to container
with an ip and an optional host port (empty means none), and faults on any
other count; and whenever the final part contains a slash, the ports
normalization splits it at the slash into a port and protocol tuple. -/
theorem split_port_spec (port : String) :
    (∀ c, splitOnS port ":" = [c] → split_port port = some (c, none)) ∧
    (∀ h c, splitOnS port ":" = [h, c] →
      split_port port = some (c, some (PortExternal.host h))) ∧
    (∀ ip h c, splitOnS port ":" = [ip, h, c] →
      split_port port = some (c, some (PortExternal.ipHost ip
        (if h = "" then none else some h)))) ∧
    (3 < (splitOnS port ":").length → split_port port = none) ∧
    (∀ a b,
      splitOnS (if strContainsSub port ":" then (splitOnS port ":").getLast! else port) "/"
        = [a, b] →
      normalize_port port = PortEntry.tup [a, b]) := by
  refine ⟨?_, ?_, ?_, ?_, ?_⟩
  · intro c hp
    simp [split_port, hp]
  · intro h c hp
    simp [split_port, hp]
  · intro ip h c hp
    simp [split_port, hp]
  · intro hlen
    unfold split_port
    rcases hsp : splitOnS port ":" with _ | ⟨a, _ | ⟨b, _ | ⟨c, _ | ⟨d, t⟩⟩⟩⟩ <;>
      rw [hsp] at hlen <;> simp_all
  · intro a b hab
    have hc : strContainsSub
        (if strContainsSub port ":" then (splitOnS port ":").getLast! else port) "/" = true := by
      rw [strContainsSub, hab]
      rfl
    simp only [normalize_port]
    rw [hc, hab]
    simp

/-- C5 witness: the theorem applied to a three-part port and to a port
whose final part carries a protocol. -/
theorem split_port_spec_witness :
    split_port "1.2.3.4:8080:80" =
      some ("80", some (PortExternal.ipHost "1.2.3.4" (some "8080"))) ∧
    normalize_port "8080:80/udp" = PortEntry.tup ["80", "udp"] := by
  constructor
  · have h := (split_port_spec "1.2.3.4:8080:80").2.2.1 "1.2.3.4" "8080" "80" (by decide)
    simpa using h
  · exact (split_port_spec "8080:80/udp").2.2.2.2 "80" "udp" (by decide)

/-- C1: convergence_plan over the labelled containers (stopped included)
returns create with an empty list exactly when no containers exist; with
smart recreate on and no container diverged it starts just the stopped
containers when at least one is stopped and is a noop on all of them when
none is; otherwise it starts all containers when recreate is not allowed
and recreates all of them when it is. -/
theorem convergence_plan_spec (config_hash : String) (cs : List Container)
    (allow_recreate smart_recreate : Bool) :
    (convergence_plan config_hash cs allow_recreate smart_recreate =
        ⟨"create", []⟩ ↔ cs = []) ∧
    (cs ≠ [] → smart_recreate = true → containers_have_diverged config_hash cs = false →
      ((∃ c ∈ cs, c.is_running = false) →
        convergence_plan config_hash cs allow_recreate smart_recreate =
          ⟨"start", cs.filter (fun c => !c.is_running)⟩) ∧
      ((∀ c ∈ cs, c.is_running = true) →
        convergence_plan config_hash cs allow_recreate smart_recreate = ⟨"noop", cs⟩)) ∧
    (cs ≠ [] → (smart_recreate = false ∨ containers_have_diverged config_hash cs = true) →
      (allow_recreate = false →
        convergence_plan config_hash cs allow_recreate smart_recreate = ⟨"start", cs⟩) ∧
      (allow_recreate = true →
        convergence_plan config_hash cs allow_recreate smart_recreate = ⟨"recreate", cs⟩)) := by
  refine ⟨⟨?_, ?_⟩, ?_, ?_⟩
  · intro h
    by_contra hne
    have hfalse : cs.isEmpty = false := by
      cases cs with
      | nil => exact absurd rfl hne
      | cons a t => rfl
    unfold convergence_plan at h
    rw [hfalse] at h
    simp only [Bool.false_eq_true, if_false] at h
    split at h
    · split at h <;> simp_all
    · split at h <;> simp_all
  · intro h
    subst h
    rfl
  · intro hne hs hd
    have hfalse : cs.isEmpty = false := by
      cases cs with
      | nil => exact absurd rfl hne
      | cons a t => rfl
    constructor
    · rintro ⟨c, hc, hrun⟩
      have hmem : c ∈ cs.filter (fun c => !c.is_running) :=
        List.mem_filter.mpr ⟨hc, by simp [hrun]⟩
      have hstopped : (cs.filter (fun c => !c.is_running)).isEmpty = false := by
        cases hfe : cs.filter (fun c => !c.is_running) with
        | nil => rw [hfe] at hmem; cases hmem
        | cons a t => rfl
      unfold convergence_plan
      rw [hfalse, hs, hd]
      simp [hstopped]
    · intro hall
      have hstopped : (cs.filter (fun c => !c.is_running)).isEmpty = true := by
        have hnil : cs.filter (fun c => !c.is_running) = [] := by
          apply List.filter_eq_nil_iff.mpr
          intro a ha
          simp [hall a ha]
        rw [hnil]; rfl
      unfold convergence_plan
      rw [hfalse, hs, hd]
      simp [hstopped]
  · intro hne hcond
    have hfalse : cs.isEmpty = false := by
      cases cs with
      | nil => exact absurd rfl hne
      | cons a t => rfl
    have hc2 : (smart_recreate && !(containers_have_diverged config_hash cs)) = false := by
      rcases hcond with h | h <;> simp [h]
    constructor
    · intro ha
      unfold convergence_plan
      rw [hfalse, hc2, ha]
      simp
    · intro ha
      unfold convergence_plan
      rw [hfalse, hc2, ha]
      simp

/-- C1 witness: the theorem applied to a single matching stopped container
and to a single diverged running one. -/
theorem convergence_plan_spec_witness :
    convergence_plan "h" [⟨"i", "n", [(LABEL_CONFIG_HASH, "h")], [], [], false⟩] true true =
      ⟨"start", [⟨"i", "n", [(LABEL_CONFIG_HASH, "h")], [], [], false⟩]⟩ ∧
    convergence_plan "h" [⟨"i", "n", [(LABEL_CONFIG_HASH, "g")], [], [], true⟩] true true =
      ⟨"recreate", [⟨"i", "n", [(LABEL_CONFIG_HASH, "g")], [], [], true⟩]⟩ := by
  constructor
  · have h := ((convergence_plan_spec "h"
        [⟨"i", "n", [(LABEL_CONFIG_HASH, "h")], [], [], false⟩] true true).2.1
      (by decide) rfl (by decide)).1 (by decide)
    exact h.trans (by decide)
  · exact ((convergence_plan_spec "h"
        [⟨"i", "n", [(LABEL_CONFIG_HASH, "g")], [], [], true⟩] true true).2.2
      (by decide) (Or.inr (by decide))).2 rfl

/-- Migrated bindings contain an entry for every candidate volume that has
no truthy external side and a truthy host path in the old container. -/
theorem data_volume_pairs_mem (container : Container) (cand : List String)
    (ps : List (Option String × Binding))
    (h : data_volume_pairs container cand = some ps) :
    ∀ s v hp, s ∈ cand → parse_volume_spec s = some v → truthyOpt v.external = false →
      dgetA container.volumes v.internal = some hp → hp ≠ "" →
      (some hp, Binding.mk v.internal (v.mode == "ro")) ∈ ps := by
  induction cand generalizing ps with
  | nil =>
    intro s v hp hs
    cases hs
  | cons c rest ih =>
    intro s v hp hs hparse hext hvol hne
    rcases hp1 : parse_volume_spec c with _ | volume
    · rw [data_volume_pairs, hp1] at h
      exact Option.noConfusion h
    rcases hp2 : data_volume_pairs container rest with _ | tail
    · rw [data_volume_pairs, hp1, hp2] at h
      exact Option.noConfusion h
    rw [data_volume_pairs, hp1, hp2] at h
    dsimp only at h
    rcases List.mem_cons.mp hs with hsc | hsr
    · subst hsc
      rw [hparse] at hp1
      injection hp1 with hveq
      subst hveq
      rw [if_neg (by simp [hext]), hvol] at h
      dsimp only at h
      rw [if_neg hne] at h
      injection h with hps
      subst hps
      simp [build_volume_binding]
    · have hmem : (some hp, Binding.mk v.internal (v.mode == "ro")) ∈ tail :=
        ih tail hp2 s v hp hsr hparse hext hvol hne
      by_cases hbx : truthyOpt volume.external = true
      · rw [if_pos hbx] at h
        injection h with hps
        subst hps
        exact hmem
      · rw [if_neg hbx] at h
        rcases hdg : dgetA container.volumes volume.internal with _ | vp <;> rw [hdg] at h
        · injection h with hps
          subst hps
          exact hmem
        · dsimp only at h
          by_cases hvp : vp = ""
          · rw [if_pos hvp] at h
            injection h with hps
            subst hps
            exact hmem
          · rw [if_neg hvp] at h
            injection h with hps
            subst hps
            exact List.mem_cons_of_mem _ hmem

/-- C3 counterexample: with declared volumes /h:/a and /b, and a previous
container whose volume map sends /b to /h, the migrated binding for /b
takes the key /h and replaces the binding of the declared volume /h:/a, so
a declared volume with an explicit external side does not always keep its
binding. -/
theorem merge_volume_bindings_counterexample :
    merge_volume_bindings ["/h:/a", "/b"]
      (some ⟨"old", "old", [], [("/b", "/h")], [], true⟩) =
      some [(some "/h", Binding.mk "/b" false)] ∧
    dgetA [(some "/h", Binding.mk "/b" false)] (some "/h") ≠ some (Binding.mk "/a" false) := by
  decide

/-- C3 (amended): merge_volume_bindings gives every declared or
image-config volume with no truthy external side, whose internal path has
a truthy host path in the previous container volume map, a binding keyed
by that host path; and a declared volume with an explicit external side
keeps its binding, provided the migrated host-path keys are pairwise
distinct and distinct from the declared external sides (without that
proviso a colliding key silently replaces the earlier binding, as the
counterexample shows). -/
theorem merge_volume_bindings_migration (vo : List String) (pc : Container)
    (especs : List VolumeSpec) (mpairs bs : List (Option String × Binding))
    (hespecs : (vo.filter (fun v => strContainsSub v ":")).mapM parse_volume_spec = some especs)
    (hmpairs : data_volume_pairs pc (data_volume_candidates pc vo) = some mpairs)
    (hbs : merge_volume_bindings vo (some pc) = some bs)
    (hnodupE : (keysA (especs.map build_volume_binding)).Nodup)
    (hnodupM : (keysA mpairs).Nodup)
    (hdisj : ∀ k ∈ keysA (especs.map build_volume_binding), k ∉ keysA mpairs) :
    (∀ s v hp, s ∈ vo ++ pc.image_volumes → parse_volume_spec s = some v →
      truthyOpt v.external = false → dgetA pc.volumes v.internal = some hp → hp ≠ "" →
      dgetA bs (some hp) = some (Binding.mk v.internal (v.mode == "ro"))) ∧
    (∀ spec ∈ especs,
      dgetA bs spec.external = some (Binding.mk spec.internal (spec.mode == "ro"))) := by
  have hgd : get_container_data_volumes pc vo = some (dictOfPairs mpairs) := by
    rw [get_container_data_volumes, hmpairs]
    rfl
  rw [merge_volume_bindings, hespecs] at hbs
  dsimp only at hbs
  rw [hgd] at hbs
  injection hbs with hbs
  subst hbs
  have hE : dictOfPairs (especs.map build_volume_binding) = especs.map build_volume_binding :=
    dictOfPairs_eq_self _ hnodupE
  have hM : dictOfPairs mpairs = mpairs := dictOfPairs_eq_self _ hnodupM
  rw [hE, hM]
  constructor
  · intro s v hp hsmem hparse hext hvol hne
    have hs_cand : s ∈ data_volume_candidates pc vo := List.mem_dedup.mpr hsmem
    have hmem := data_volume_pairs_mem pc _ mpairs hmpairs s v hp hs_cand hparse hext hvol hne
    exact dgetA_dupdateA_mem mpairs _ _ _ hnodupM hmem
  · intro spec hspec
    have hkey1 : (build_volume_binding spec).1 ∈ keysA (especs.map build_volume_binding) :=
      List.mem_map_of_mem Prod.fst (List.mem_map_of_mem build_volume_binding hspec)
    have h1 : dgetA (dupdateA (especs.map build_volume_binding) mpairs) spec.external
        = dgetA (especs.map build_volume_binding) spec.external :=
      dgetA_dupdateA_not_mem _ _ _ (hdisj _ hkey1)
    rw [h1]
    exact dgetA_of_mem _ _ _ hnodupE (List.mem_map_of_mem build_volume_binding hspec)

/-- C3 witness: the amended theorem applied to one migrated and one
explicit binding with distinct keys. -/
theorem merge_volume_bindings_migration_witness :
    dgetA [(some "/e", Binding.mk "/a" false), (some "/h", Binding.mk "/b" false)] (some "/h")
      = some (Binding.mk "/b" false) ∧
    dgetA [(some "/e", Binding.mk "/a" false), (some "/h", Binding.mk "/b" false)] (some "/e")
      = some (Binding.mk "/a" false) := by
  have h := merge_volume_bindings_migration ["/e:/a", "/b"]
    ⟨"old", "old", [], [("/b", "/h")], [], true⟩
    [⟨some "/e", "/a", "rw"⟩] [(some "/h", Binding.mk "/b" false)]
    [(some "/e", Binding.mk "/a" false), (some "/h", Binding.mk "/b" false)]
    (by decide) (by decide) (by decide) (by decide) (by decide) (by decide)
  constructor
  · exact h.1 "/b" ⟨none, "/b", "rw"⟩ "/h" (by decide) (by decide) rfl rfl (by decide)
  · exact h.2 ⟨some "/e", "/a", "rw"⟩ (by decide)

/-- Projection facts: deleting start-only keys leaves the environment. -/
theorem pop_start_keys_environment (o : Opts) : (pop_start_keys o).environment = o.environment :=
  rfl

/-- Projection facts: deleting start-only keys leaves the labels. -/
theorem pop_start_keys_labels (o : Opts) : (pop_start_keys o).labels = o.labels := rfl

/-- Shape of a successful create-options record: its environment is the
merged environment, extended with the affinity entry when a previous
container is given, and its labels are built by build_container_labels
over the standard service labels and the assigned number. -/
theorem create_options_env_labels (s : Service) (o : Opts) (number : Nat) (one_off : Bool)
    (prev : Option Container) (config_hash : String) (hcf : Opts → HostConfig) (co : Opts)
    (h : s.get_container_create_options o number one_off prev config_hash hcf = some co) :
    (co.environment = some (match prev with
      | some p => dsetA (merge_environment s.options.environment o.environment)
          "affinity:container" ("=" ++ p.id)
      | none => merge_environment s.options.environment o.environment)) ∧
    (∃ lo, co.labels = some (build_container_labels lo (s.labels one_off) number)) := by
  unfold Service.get_container_create_options at h
  dsimp only at h
  split at h
  · exact Option.noConfusion h
  · rename_i binds hmb
    split at h
    · exact Option.noConfusion h
    · rename_i copts hrw
      split at h
      · exact Option.noConfusion h
      · rename_i img himg
        injection h with hco
        subst hco
        constructor
        · cases prev <;> simp [pop_start_keys]
        · exact ⟨copts.labels.getD [], by simp [pop_start_keys]⟩

/-- Lookups of the five standard keys in the labels built over user label
options: the standard values always win. -/
theorem build_container_labels_standard (lo : Dict String) (p n b : String) (number : Nat) :
    dgetA (build_container_labels lo
        [LABEL_PROJECT ++ "=" ++ p, LABEL_SERVICE ++ "=" ++ n, LABEL_ONE_OFF ++ "=" ++ b] number)
      LABEL_PROJECT = some p ∧
    dgetA (build_container_labels lo
        [LABEL_PROJECT ++ "=" ++ p, LABEL_SERVICE ++ "=" ++ n, LABEL_ONE_OFF ++ "=" ++ b] number)
      LABEL_SERVICE = some n ∧
    dgetA (build_container_labels lo
        [LABEL_PROJECT ++ "=" ++ p, LABEL_SERVICE ++ "=" ++ n, LABEL_ONE_OFF ++ "=" ++ b] number)
      LABEL_ONE_OFF = some b ∧
    dgetA (build_container_labels lo
        [LABEL_PROJECT ++ "=" ++ p, LABEL_SERVICE ++ "=" ++ n, LABEL_ONE_OFF ++ "=" ++ b] number)
      LABEL_CONTAINER_NUMBER = some (toString number) ∧
    dgetA (build_container_labels lo
        [LABEL_PROJECT ++ "=" ++ p, LABEL_SERVICE ++ "=" ++ n, LABEL_ONE_OFF ++ "=" ++ b] number)
      LABEL_VERSION = some COMPOSE_VERSION := by
  have hmap : [LABEL_PROJECT ++ "=" ++ p, LABEL_SERVICE ++ "=" ++ n,
      LABEL_ONE_OFF ++ "=" ++ b].map splitEq =
      [(LABEL_PROJECT, p), (LABEL_SERVICE, n), (LABEL_ONE_OFF, b)] := by
    simp only [List.map_cons, List.map_nil]
    rw [splitEq_append _ _ (by decide), splitEq_append _ _ (by decide),
      splitEq_append _ _ (by decide)]
  unfold build_container_labels
  rw [hmap]
  have hupd : dupdateA lo [(LABEL_PROJECT, p), (LABEL_SERVICE, n), (LABEL_ONE_OFF, b)] =
      dsetA (dsetA (dsetA lo LABEL_PROJECT p) LABEL_SERVICE n) LABEL_ONE_OFF b := rfl
  rw [hupd]
  refine ⟨?_, ?_, ?_, ?_, ?_⟩
  · rw [dgetA_dsetA_ne _ _ _ _ (by decide), dgetA_dsetA_ne _ _ _ _ (by decide),
      dgetA_dsetA_ne _ _ _ _ (by decide), dgetA_dsetA_ne _ _ _ _ (by decide),
      dgetA_dsetA_self]
  · rw [dgetA_dsetA_ne _ _ _ _ (by decide), dgetA_dsetA_ne _ _ _ _ (by decide),
      dgetA_dsetA_ne _ _ _ _ (by decide), dgetA_dsetA_self]
  · rw [dgetA_dsetA_ne _ _ _ _ (by decide), dgetA_dsetA_ne _ _ _ _ (by decide),
      dgetA_dsetA_self]
  · rw [dgetA_dsetA_ne _ _ _ _ (by decide), dgetA_dsetA_self]
  · rw [dgetA_dsetA_self]

/-- C6 counterexample: with a previous container of id abc, the create
options environment maps affinity:container to the string =abc, not to
the id abc, so the rendered entry is affinity:container==abc. -/
theorem create_options_affinity_counterexample :
    ((Service.get_container_create_options ⟨"web", "proj", { image := some "img" }⟩ {} 1 false
        (some ⟨"abc", "w", [], [], [], true⟩) "h" (fun _ => {})).bind
      (fun co => co.environment.bind (fun env => dgetA env "affinity:container"))) =
        some ("=" ++ "abc") ∧
    ((Service.get_container_create_options ⟨"web", "proj", { image := some "img" }⟩ {} 1 false
        (some ⟨"abc", "w", [], [], [], true⟩) "h" (fun _ => {})).bind
      (fun co => co.environment.bind (fun env => dgetA env "affinity:container"))) ≠
        some "abc" := by
  decide

/-- C6 (amended): for every call with a previous container, the create
options environment maps the key affinity:container to an equals sign
followed by the previous container id, so the rendered entry is
affinity:container==<prev.id>, the scheduler affinity operator form. -/
theorem create_options_affinity (s : Service) (o : Opts) (number : Nat) (one_off : Bool)
    (prev : Container) (config_hash : String) (hcf : Opts → HostConfig) (co : Opts)
    (h : s.get_container_create_options o number one_off (some prev) config_hash hcf = some co) :
    ∀ env, co.environment = some env →
      dgetA env "affinity:container" = some ("=" ++ prev.id) := by
  obtain ⟨henv, -⟩ := create_options_env_labels s o number one_off (some prev) config_hash hcf co h
  intro env henv2
  rw [henv] at henv2
  injection henv2 with he
  subst he
  exact dgetA_dsetA_self _ _ _

/-- C6 witness: the amended theorem applied to a concrete service and
previous container. -/
theorem create_options_affinity_witness :
    dgetA [("affinity:container", "=abc")] "affinity:container" = some "=abc" := by
  exact create_options_affinity ⟨"web", "proj", { image := some "img" }⟩ {} 1 false
    ⟨"abc", "w", [], [], [], true⟩ "h" (fun _ => {}) _ rfl
    [("affinity:container", "=abc")] rfl

/-- C10: in every successful create-options computation the final labels
bind the project, service and one-off keys to the standard service values
and the container-number and version keys to the assigned number and to
the engine version, overwriting any user-supplied labels for those keys
and never the reverse. -/
theorem create_options_standard_labels (s : Service) (o : Opts) (number : Nat) (one_off : Bool)
    (prev : Option Container) (config_hash : String) (hcf : Opts → HostConfig) (co : Opts)
    (h : s.get_container_create_options o number one_off prev config_hash hcf = some co) :
    ∀ lbls, co.labels = some lbls →
      dgetA lbls LABEL_PROJECT = some s.project ∧
      dgetA lbls LABEL_SERVICE = some s.name ∧
      dgetA lbls LABEL_ONE_OFF = some (if one_off then "True" else "False") ∧
      dgetA lbls LABEL_CONTAINER_NUMBER = some (toString number) ∧
      dgetA lbls LABEL_VERSION = some COMPOSE_VERSION := by
  obtain ⟨-, lo, hl⟩ := create_options_env_labels s o number one_off prev config_hash hcf co h
  intro lbls hl2
  rw [hl] at hl2
  injection hl2 with he
  subst he
  exact build_container_labels_standard lo s.project s.name
    (if one_off then "True" else "False") number

/-- C10 witness: the theorem applied to a service whose user labels try to
override the project key. -/
theorem create_options_standard_labels_witness :
    dgetA [(LABEL_PROJECT, "proj"), (LABEL_CONFIG_HASH, "h"), (LABEL_SERVICE, "web"),
        (LABEL_ONE_OFF, "False"), (LABEL_CONTAINER_NUMBER, "3"), (LABEL_VERSION, COMPOSE_VERSION)]
      LABEL_PROJECT = some "proj" ∧
    dgetA [(LABEL_PROJECT, "proj"), (LABEL_CONFIG_HASH, "h"), (LABEL_SERVICE, "web"),
        (LABEL_ONE_OFF, "False"), (LABEL_CONTAINER_NUMBER, "3"), (LABEL_VERSION, COMPOSE_VERSION)]
      LABEL_SERVICE = some "web" ∧
    dgetA [(LABEL_PROJECT, "proj"), (LABEL_CONFIG_HASH, "h"), (LABEL_SERVICE, "web"),
        (LABEL_ONE_OFF, "False"), (LABEL_CONTAINER_NUMBER, "3"), (LABEL_VERSION, COMPOSE_VERSION)]
      LABEL_ONE_OFF = some "False" ∧
    dgetA [(LABEL_PROJECT, "proj"), (LABEL_CONFIG_HASH, "h"), (LABEL_SERVICE, "web"),
        (LABEL_ONE_OFF, "False"), (LABEL_CONTAINER_NUMBER, "3"), (LABEL_VERSION, COMPOSE_VERSION)]
      LABEL_CONTAINER_NUMBER = some "3" ∧
    dgetA [(LABEL_PROJECT, "proj"), (LABEL_CONFIG_HASH, "h"), (LABEL_SERVICE, "web"),
        (LABEL_ONE_OFF, "False"), (LABEL_CONTAINER_NUMBER, "3"), (LABEL_VERSION, COMPOSE_VERSION)]
      LABEL_VERSION = some COMPOSE_VERSION := by
  exact create_options_standard_labels
    ⟨"web", "proj", { image := some "img", labels := some [(LABEL_PROJECT, "evil")] }⟩
    {} 3 false none "h" (fun _ => {}) _ rfl
    [(LABEL_PROJECT, "proj"), (LABEL_CONFIG_HASH, "h"), (LABEL_SERVICE, "web"),
     (LABEL_ONE_OFF, "False"), (LABEL_CONTAINER_NUMBER, "3"), (LABEL_VERSION, COMPOSE_VERSION)]
    rfl


/-- The create loop leaves at least the desired number of containers. -/
theorem create_containers_up_to_length (containers : List SCtr) (desired_num : Nat) :
    desired_num ≤ (create_containers_up_to containers desired_num).length := by
  induction containers, desired_num using create_containers_up_to.induct with
  | case1 containers desired_num h ih =>
    rw [create_containers_up_to, if_pos h]
    exact ih
  | case2 containers desired_num h =>
    rw [create_containers_up_to, if_neg h]
    omega

/-- A filter and its complement partition the length of a list. -/
theorem length_filter_partition {α : Type} (p : α → Bool) (l : List α) :
    (l.filter p).length + (l.filter (fun a => !p a)).length = l.length := by
  induction l with
  | nil => rfl
  | cons a t ih =>
    cases hpa : p a <;> simp [List.filter_cons, hpa, ← ih] <;> omega

/-- Sorting by number preserves length. -/
theorem sort_by_number_length (l : List SCtr) : (sort_by_number l).length = l.length :=
  List.length_insertionSort _ l

/-- Sorting by number preserves membership. -/
theorem sort_by_number_mem (l : List SCtr) (c : SCtr) : c ∈ sort_by_number l ↔ c ∈ l :=
  List.mem_insertionSort _

/-- The stop loop keeps the minimum of the running count and the target,
preserves the total count, and returns running containers drawn from its
input. -/
theorem stop_excess_spec (running stopped : List SCtr) (n : Nat) :
    (stop_excess running stopped n).1.length = min running.length n ∧
    (stop_excess running stopped n).1.length + (stop_excess running stopped n).2.length
      = running.length + stopped.length ∧
    ∀ c ∈ (stop_excess running stopped n).1, c ∈ running := by
  induction running using List.reverseRecOn generalizing stopped with
  | nil =>
    rw [stop_excess]
    simp
  | append_singleton xs x ih =>
    by_cases h : n < (xs ++ [x]).length
    · rw [stop_excess, if_pos h, List.getLast?_concat]
      dsimp only
      rw [List.dropLast_concat]
      obtain ⟨h1, h2, h3⟩ := ih (stopped ++ [{ x with is_running := false }])
      refine ⟨?_, ?_, ?_⟩
      · rw [h1]
        simp only [List.length_append, List.length_cons, List.length_nil] at h ⊢
        omega
      · rw [h2]
        simp only [List.length_append, List.length_cons, List.length_nil]
        omega
      · intro c hc
        exact List.mem_append_left [x] (h3 c hc)
    · rw [stop_excess, if_neg h]
      refine ⟨?_, rfl, fun c hc => hc⟩
      simp only [List.length_append, List.length_cons, List.length_nil] at h ⊢
      omega

/-- The start loop succeeds whenever enough containers exist and returns
exactly the desired number, all running. -/
theorem start_missing_spec (stopped running : List SCtr) (n : Nat)
    (h1 : running.length ≤ n) (h2 : n ≤ running.length + stopped.length)
    (h3 : ∀ c ∈ running, c.is_running = true) :
    ∃ r rest, start_missing running stopped n = some (r, rest) ∧
      r.length = n ∧ ∀ c ∈ r, c.is_running = true := by
  induction stopped generalizing running with
  | nil =>
    have hn : running.length = n := by simp at h2; omega
    refine ⟨running, [], ?_, hn, h3⟩
    rw [start_missing, if_neg (by omega)]
  | cons c rest ih =>
    by_cases hlt : running.length < n
    · have hstep := ih (running ++ [{ c with is_running := true }])
        (by simp; omega) (by simp at h2 ⊢; omega)
        (by
          intro d hd
          rcases List.mem_append.mp hd with hd | hd
          · exact h3 d hd
          · simp at hd
            subst hd
            rfl)
      obtain ⟨r, rest2, heq, hlen, hall⟩ := hstep
      refine ⟨r, rest2, ?_, hlen, hall⟩
      rw [start_missing, if_pos hlt]
      exact heq
    · refine ⟨running, c :: rest, ?_, by omega, h3⟩
      rw [start_missing, if_neg hlt]

/-- C2: for every service that can be scaled, when scale returns without
error the containers left on the daemon are exactly the desired number,
all running, with no stopped container remaining. -/
theorem scale_spec (s : Service) (containers : List SCtr) (desired_num : Nat)
    (hcan : s.can_be_scaled = true) (result : List SCtr)
    (h : s.scale containers desired_num = some result) :
    result.length = desired_num ∧ ∀ c ∈ result, c.is_running = true := by
  rw [Service.scale, hcan] at h
  have hge : desired_num ≤ (create_containers_up_to containers desired_num).length :=
    create_containers_up_to_length _ _
  obtain ⟨hm1, hm2, hm3⟩ := stop_excess_spec
    (sort_by_number ((create_containers_up_to containers desired_num).filter
      (fun c => c.is_running)))
    (sort_by_number ((create_containers_up_to containers desired_num).filter
      (fun c => !c.is_running)))
    desired_num
  have hsum0 :
      (sort_by_number ((create_containers_up_to containers desired_num).filter
        (fun c => c.is_running))).length
      + (sort_by_number ((create_containers_up_to containers desired_num).filter
        (fun c => !c.is_running))).length
      = (create_containers_up_to containers desired_num).length := by
    rw [sort_by_number_length, sort_by_number_length]
    exact length_filter_partition _ _
  have hrun1 : ∀ c ∈ (stop_excess
      (sort_by_number ((create_containers_up_to containers desired_num).filter
        (fun c => c.is_running)))
      (sort_by_number ((create_containers_up_to containers desired_num).filter
        (fun c => !c.is_running)))
      desired_num).1, c.is_running = true := by
    intro c hc
    have hmem := hm3 c hc
    rw [sort_by_number_mem] at hmem
    exact List.of_mem_filter hmem
  obtain ⟨r, rest, hsm, hlen, hall⟩ := start_missing_spec
    (stop_excess
      (sort_by_number ((create_containers_up_to containers desired_num).filter
        (fun c => c.is_running)))
      (sort_by_number ((create_containers_up_to containers desired_num).filter
        (fun c => !c.is_running)))
      desired_num).2
    (stop_excess
      (sort_by_number ((create_containers_up_to containers desired_num).filter
        (fun c => c.is_running)))
      (sort_by_number ((create_containers_up_to containers desired_num).filter
        (fun c => !c.is_running)))
      desired_num).1
    desired_num
    (by rw [hm1]; exact Nat.min_le_right _ _)
    (by omega)
    hrun1
  simp only [Bool.not_true, Bool.false_eq_true, if_false] at h
  rw [hsm] at h
  simp only [Option.some.injEq] at h
  subst h
  exact ⟨hlen, hall⟩

/-- C2 witness: the theorem applied to scaling an empty container set up
to two. -/
theorem scale_spec_witness :
    ((⟨1, true⟩ : SCtr).is_running = true ∧ (⟨2, true⟩ : SCtr).is_running = true) ∧
    ([⟨1, true⟩, ⟨2, true⟩] : List SCtr).length = 2 := by
  have hs : Service.scale ⟨"web", "proj", { image := some "img" }⟩ [] 2 =
      some [⟨1, true⟩, ⟨2, true⟩] := by
    simp [Service.scale, Service.can_be_scaled, create_containers_up_to,
      next_container_number, sort_by_number, List.insertionSort, List.orderedInsert,
      stop_excess, start_missing]
  have h := scale_spec ⟨"web", "proj", { image := some "img" }⟩ [] 2 rfl
    [⟨1, true⟩, ⟨2, true⟩] hs
  exact ⟨⟨h.2 ⟨1, true⟩ (by simp), h.2 ⟨2, true⟩ (by simp)⟩, h.1⟩
